import Mathlib

/-
  Verification development for the parser-combinator engine in
  `src/index.ts` of itskihaga/parser-combinator.

  Modelling decisions, in order of appearance in the source:

  * A JavaScript string is modelled as a `List Char` (`JStr`).  All string
    operations the source performs (prefix tests, splitting off a matched
    prefix, equality with "", concatenation in template literals) are the
    corresponding list operations.

  * Contents produced by parsers live in a closed universe `Value`:
    the leaf matchers produce strings (`Value.vstr`), `sequence`/`repeat`
    produce arrays of contents (`Value.vlist`), and `then` may transform a
    content by an arbitrary function `Value → Value`.

  * `FailureObject` is the source's `{message, causes?}` record; an absent
    `causes` field is `none`.  `ParseResultInner` and `ParseResult` are the
    source's tagged unions, with `result:"match"` rendered as the
    constructors `success` / `matched` and `result:"failure"` as `failure`
    carrying the `FailureObject` fields inline, exactly as in the source
    types.

  * `consume` is fuel-indexed: combinators (`lazy` in particular, and the
    unbounded loop in `repeat`) can recurse without any decreasing
    structure, so the JavaScript evaluation need not terminate.
    `consume fuel p s = some r` means evaluation returns the outcome `r`
    (given enough fuel); `none` for every fuel means the evaluation never
    produces an outcome (it diverges, or it aborts with a thrown runtime
    error, as `sequence()` with an empty parser list does when it invokes
    `consume` on an `undefined` array element).

  * The JavaScript RegExp engine is not modelled; `regexp` in the source
    wraps the caller's expression `exp` into `^(exp.source)([\s\S]*)$` and
    destructures `[, content, unconsumed]` from the match result.
    `JSRegExp.exec` abstracts the wrapped matcher, returning exactly that
    pair (result[1], result[2]), or `none` on a non-match.  No relation
    between the pair and the input is assumed: JavaScript numbers capture
    groups by left-parenthesis order over the combined pattern, so
    result[2] is the wrapper's remainder group `([\s\S]*)` only when
    `exp.source` contains no capturing groups of its own; when it does,
    result[2] is the expression's first inner capture group (see
    `groupRegExp`, which models the wrapped matcher for /(a)/), and the
    suffix invariant and the pattern-leaf description fail on the code.
    `ExecSplits` names the capture-group-free guarantee under which the
    suffix invariant is proved.  `display` is the string interpolation of
    the RegExp object used in the failure message.
-/

namespace PComb

/-- A JavaScript string, modelled as its list of characters. -/
abbrev JStr := List Char

/-- Embed a Lean string literal into the model. -/
def jstr (s : String) : JStr := s.toList

/-- Closed universe of contents a parser can produce: leaf matchers yield
strings, `sequence`/`repeat` yield arrays, `then` may map contents through an
arbitrary function on this universe. -/
inductive Value : Type where
  | vstr (s : JStr)
  | vlist (l : List Value)

/-- The source's `FailureObject`: `{message:string, causes?:FailureObject[]}`.
An absent `causes` field is `none`. -/
inductive FailureObject : Type where
  | mk (message : JStr) (causes : Option (List FailureObject))

/-- The `message` field of a `FailureObject`. -/
def FailureObject.message : FailureObject → JStr
  | .mk m _ => m

/-- The `causes` field of a `FailureObject`. -/
def FailureObject.causes : FailureObject → Option (List FailureObject)
  | .mk _ c => c

/-- The source's `ParseResultInner<T>`: either `ParseResultSuccessInner`
(`content`, `unconsumed`, optional `suppressedFailures`) or
`ParseResultFailure` (`message`, optional `causes`). -/
inductive ParseResultInner : Type where
  | success (content : Value) (unconsumed : JStr)
      (suppressedFailures : Option (List FailureObject))
  | failure (message : JStr) (causes : Option (List FailureObject))

/-- The source's public `ParseResult<T>`: `{result:"match", content}` —
rendered `matched` since `match` is reserved — or a failure. -/
inductive ParseResult : Type where
  | matched (content : Value)
  | failure (message : JStr) (causes : Option (List FailureObject))

/-- Abstraction of the wrapped matcher `new RegExp("^(" + exp.source +
")([\x5cs\x5cS]*)$")` that the source's `regexp` builds, together with the
destructuring `[, content, unconsumed] = result`: `exec s` returns the pair
of destructured groups (result[1], result[2]), or `none` when the engine
does not match.  result[1] is always the whole matched prefix (the
wrapper's outer group, anchored at position 0).  result[2], however, is the
remainder captured by the wrapper's `([\x5cs\x5cS]*)` group only when
`exp.source` contains no capturing groups of its own: JavaScript numbers
capture groups by left-parenthesis order over the combined pattern, so an
expression with inner capturing groups shifts the remainder group, and
result[2] is then the expression's first inner group.  No equation between
the two groups and the input is therefore assumed here; `ExecSplits` below
states the guarantee that holds in the capture-group-free case.  `display`
is the string interpolation of the RegExp object (in JavaScript, slashes
and flags included) used in the failure message. -/
structure JSRegExp : Type where
  exec : JStr → Option (JStr × JStr)
  display : JStr

/-- The property that the two groups an engine returns always concatenate
back to the input.  It holds of the source's wrapped matcher exactly when
the caller's expression contains no capturing groups, so that result[2]
really is the wrapper's remainder group. -/
def ExecSplits (e : JSRegExp) : Prop :=
  ∀ s c u, e.exec s = some (c, u) → c ++ u = s

/-- Deep embedding of every parser the public surface can build:
`str` (aka literal), `regexp` (aka pattern), `sequence`, `choice`, `repeat`,
`lazy`, and the methods `then`, `validate`, `onParsed`, `not` of any parser.
`onParsedP` keeps no callback: the source calls the observer and returns the
underlying outcome unchanged, so the callback has no effect on the outcome.
In `notP p q`, `p` is the receiver and `q` the negated parser of `p.not(q)`. -/
inductive ParserC : Type where
  | strP (literal : JStr)
  | regexpP (e : JSRegExp)
  | seqP (ps : List ParserC)
  | choiceP (ps : List ParserC)
  | repeatP (p : ParserC)
  | lazyP (factory : Unit → ParserC)
  | thenP (p : ParserC) (action : Value → Value)
  | validateP (p : ParserC) (predicate : Value → Bool)
  | onParsedP (p : ParserC)
  | notP (p : ParserC) (q : ParserC)

/-- Every `regexp` leaf of a parser satisfies `ExecSplits` — as is the case
whenever every pattern expression used in the grammar is free of capturing
groups.  For a `lazy` node the condition is imposed on the parser the
factory builds. -/
inductive RegexesSplit : ParserC → Prop where
  | strP (lit : JStr) : RegexesSplit (ParserC.strP lit)
  | regexpP {e : JSRegExp} :
      ExecSplits e → RegexesSplit (ParserC.regexpP e)
  | seqP {ps : List ParserC} :
      (∀ p ∈ ps, RegexesSplit p) → RegexesSplit (ParserC.seqP ps)
  | choiceP {ps : List ParserC} :
      (∀ p ∈ ps, RegexesSplit p) → RegexesSplit (ParserC.choiceP ps)
  | repeatP {p : ParserC} :
      RegexesSplit p → RegexesSplit (ParserC.repeatP p)
  | lazyP {f : Unit → ParserC} :
      RegexesSplit (f ()) → RegexesSplit (ParserC.lazyP f)
  | thenP {p : ParserC} {a : Value → Value} :
      RegexesSplit p → RegexesSplit (ParserC.thenP p a)
  | validateP {p : ParserC} {f : Value → Bool} :
      RegexesSplit p → RegexesSplit (ParserC.validateP p f)
  | onParsedP {p : ParserC} :
      RegexesSplit p → RegexesSplit (ParserC.onParsedP p)
  | notP {p q : ParserC} :
      RegexesSplit p → RegexesSplit q → RegexesSplit (ParserC.notP p q)

/-- The recursive helper `fn` inside the source's `_matchSeq`, abstracted
over the consumption function `c` of the sub-parsers.  `fn(cur, num, prev)`
reads `parsers[num]`; on an empty suffix of the parser list that read yields
`undefined` and `undefined.consume(cur)` throws, so no outcome is produced
(`none`).  On a success it appends the content and, when `parsers[num+1]` is
present (arrays index truthily iff in range), recurses on the unconsumed
remainder; otherwise it returns the accumulated contents.  A failure is
returned as is. -/
def matchSeqGo (c : ParserC → JStr → Option ParseResultInner) :
    List ParserC → JStr → List Value → Option ParseResultInner
  | [], _, _ => none
  | p :: rest, cur, prev =>
      match c p cur with
      | none => none
      | some (ParseResultInner.failure m cs) => some (ParseResultInner.failure m cs)
      | some (ParseResultInner.success v u _) =>
          match rest with
          | [] => some (ParseResultInner.success (Value.vlist (prev ++ [v])) u none)
          | _ :: _ => matchSeqGo c rest u (prev ++ [v])

/-- The recursive helper `fn` inside the source's `choice`, abstracted over
the consumption function `c`.  Every alternative is tried against the same
string `s`; `failures` is the accumulator that starts as `undefined`
(`none`).  When the alternatives are exhausted the result is the
"No Matches" failure with the accumulated causes; a success is returned with
the accumulated failures as `suppressedFailures`; a failure is recorded as
`{message, causes}` and the next alternative is tried. -/
def choiceGo (c : ParserC → JStr → Option ParseResultInner) (s : JStr) :
    List ParserC → Option (List FailureObject) → Option ParseResultInner
  | [], failures => some (ParseResultInner.failure (jstr "No Matches") failures)
  | p :: rest, failures =>
      match c p s with
      | none => none
      | some (ParseResultInner.success v u _) =>
          some (ParseResultInner.success v u failures)
      | some (ParseResultInner.failure m cs) =>
          choiceGo c s rest
            (match failures with
             | none => some [FailureObject.mk m cs]
             | some fs => some (fs ++ [FailureObject.mk m cs]))

/-- The recursive helper `fn` inside the source's `repeat`, abstracted over
the consumption function `c` of the repeated parser, with explicit loop fuel
(the JavaScript loop has no bound of its own).  On a failure of `c` the loop
stops and succeeds with the accumulated contents and the current cursor; on a
success it appends the content and recurses on the unconsumed remainder
unless that remainder is the empty string, in which case it succeeds. -/
def repeatGo (c : JStr → Option ParseResultInner) :
    Nat → JStr → List Value → Option ParseResultInner
  | 0, _, _ => none
  | m + 1, cur, acc =>
      match c cur with
      | none => none
      | some (ParseResultInner.failure _ _) =>
          some (ParseResultInner.success (Value.vlist acc) cur none)
      | some (ParseResultInner.success v u _) =>
          if u = [] then
            some (ParseResultInner.success (Value.vlist (acc ++ [v])) u none)
          else
            repeatGo c m u (acc ++ [v])

/-- Fuel-indexed evaluation of `consume`.  Each case translates the
corresponding `consume` body in the source:

* `strP lit` — the matcher `^escaped(lit)([\x5cs\x5cS]*)$` succeeds exactly
  when `lit` is a prefix of the input; the capture group is the remainder.
  Content is the literal itself.
* `regexpP e` — run the abstracted wrapped matcher; destructure the two
  groups into content and unconsumed, or fail with the interpolated message.
* `thenP` — on success rebuild the outcome with the transformed content
  (the rebuilt object has no `suppressedFailures` field); failures pass
  through.
* `validateP` — on success return the outcome itself when the predicate
  holds, else a fresh "Validation Error" failure without causes; failures
  pass through.
* `onParsedP` — the observer is called for its side effect only; the
  outcome is returned unchanged.
* `notP p q` — run `q`; a success of `q` becomes the "TODO:" failure, a
  failure of `q` delegates to `p`.
* `lazyP` — invoke the factory afresh and delegate.
* `seqP` / `choiceP` / `repeatP` — enter the respective loop helper. -/
def consume : Nat → ParserC → JStr → Option ParseResultInner
  | 0, _, _ => none
  | _ + 1, ParserC.strP lit, s =>
      if s.take lit.length = lit then
        some (ParseResultInner.success (Value.vstr lit) (s.drop lit.length) none)
      else
        some (ParseResultInner.failure
          (jstr "Literal '" ++ lit ++ jstr "' not matched: '" ++ s ++ jstr "'") none)
  | _ + 1, ParserC.regexpP e, s =>
      match e.exec s with
      | none =>
          some (ParseResultInner.failure
            (jstr "Regexp '" ++ e.display ++ jstr "' not matched: '" ++ s ++ jstr "'") none)
      | some (c, u) => some (ParseResultInner.success (Value.vstr c) u none)
  | n + 1, ParserC.seqP ps, s =>
      matchSeqGo (fun p t => consume n p t) ps s []
  | n + 1, ParserC.choiceP ps, s =>
      choiceGo (fun p t => consume n p t) s ps none
  | n + 1, ParserC.repeatP p, s =>
      repeatGo (fun t => consume n p t) n s []
  | n + 1, ParserC.lazyP f, s => consume n (f ()) s
  | n + 1, ParserC.thenP p act, s =>
      match consume n p s with
      | none => none
      | some (ParseResultInner.success v u _) =>
          some (ParseResultInner.success (act v) u none)
      | some (ParseResultInner.failure m cs) =>
          some (ParseResultInner.failure m cs)
  | n + 1, ParserC.validateP p pred, s =>
      match consume n p s with
      | none => none
      | some (ParseResultInner.success v u sf) =>
          if pred v then some (ParseResultInner.success v u sf)
          else some (ParseResultInner.failure (jstr "Validation Error") none)
      | some (ParseResultInner.failure m cs) =>
          some (ParseResultInner.failure m cs)
  | n + 1, ParserC.onParsedP p, s => consume n p s
  | n + 1, ParserC.notP p q, s =>
      match consume n q s with
      | none => none
      | some (ParseResultInner.success _ _ _) =>
          some (ParseResultInner.failure (jstr "TODO:") none)
      | some (ParseResultInner.failure _ _) => consume n p s

/-- The source's `parse`: call `consume`; a failure is returned as is; a
success with empty remainder becomes a `matched` result; otherwise a fresh
failure with the "Expect EOF" message, forwarding `suppressedFailures` as
`causes`. -/
def parse (n : Nat) (p : ParserC) (s : JStr) : Option ParseResult :=
  match consume n p s with
  | none => none
  | some (ParseResultInner.failure m cs) => some (ParseResult.failure m cs)
  | some (ParseResultInner.success v u sf) =>
      if u = [] then some (ParseResult.matched v)
      else some (ParseResult.failure
        (jstr "Expect EOF. But '" ++ u ++ jstr "' was found") sf)

/-- The shape of the failure accumulator of `choice` after collecting the
failure list `fs` starting from an absent (`none`) accumulator: absent when
nothing was collected, otherwise the list itself. -/
def optList (fs : List FailureObject) : Option (List FailureObject) :=
  match fs with
  | [] => none
  | _ :: _ => some fs

/-- One step of `choice`'s failure accumulation: append to the collected
array, or start a fresh one when the accumulator is still absent. -/
def accPush (acc : Option (List FailureObject)) (f : FailureObject) :
    Option (List FailureObject) :=
  match acc with
  | none => some [f]
  | some fs => some (fs ++ [f])

/-- Under consumption function `c`, every parser of `qs` fails on the string
`s`, and `fs` collects, in trial order, the `message`/`causes` records of
those failures. -/
def FailsAt (c : ParserC → JStr → Option ParseResultInner) (s : JStr)
    (qs : List ParserC) (fs : List FailureObject) : Prop :=
  List.Forall₂
    (fun q f => c q s = some (ParseResultInner.failure f.message f.causes)) qs fs

/-- Under consumption function `c`, `SeqChain c s ps vs fin` says the parsers
of `ps` all succeed in order, with a cursor starting at `s` and each
success's `unconsumed` threaded into the next parser, producing the contents
`vs` in order and the final cursor `fin`. -/
inductive SeqChain (c : ParserC → JStr → Option ParseResultInner) :
    JStr → List ParserC → List Value → JStr → Prop where
  | nil (s : JStr) : SeqChain c s [] [] s
  | cons {s : JStr} {p : ParserC} {ps : List ParserC} {v : Value}
      {vs : List Value} {u fin : JStr} {sf : Option (List FailureObject)} :
      c p s = some (ParseResultInner.success v u sf) →
      SeqChain c u ps vs fin →
      SeqChain c s (p :: ps) (v :: vs) fin

/-- Under consumption function `c` for the repeated parser,
`RepChain c cur vs fin` says the greedy repetition loop started at cursor
`cur` accumulates the contents `vs` and stops with cursor `fin`: it stops
when `c` fails on the current cursor (discarding that failure), or when the
cursor becomes the empty string. -/
inductive RepChain (c : JStr → Option ParseResultInner) :
    JStr → List Value → JStr → Prop where
  | stop {cur : JStr} {m : JStr} {cs : Option (List FailureObject)} :
      c cur = some (ParseResultInner.failure m cs) →
      RepChain c cur [] cur
  | last {cur : JStr} {v : Value} {sf : Option (List FailureObject)} :
      c cur = some (ParseResultInner.success v [] sf) →
      RepChain c cur [v] []
  | step {cur : JStr} {v : Value} {u : JStr} {sf : Option (List FailureObject)}
      {vs : List Value} {fin : JStr} :
      c cur = some (ParseResultInner.success v u sf) →
      u ≠ [] →
      RepChain c u vs fin →
      RepChain c cur (v :: vs) fin

/-- The engine's behavior for the expression /(a)/, whose source contains a
capturing group: the source wraps it into the combined pattern
^((a))([\x5cs\x5cS]*)$.  JavaScript numbers capture groups by
left-parenthesis order over the combined pattern, so on an input starting
with the character a the match result has result[1] = "a" (the wrapper's
outer group, the whole matched prefix) and result[2] = "a" (the
expression's own inner capture group) — the remainder is group 3, which the
destructuring never reads.  `exec` returns exactly the destructured pair
(result[1], result[2]). -/
def groupRegExp : JSRegExp where
  exec s := if s.take 1 = jstr "a" then some (jstr "a", jstr "a") else none
  display := jstr "/(a)/"

theorem FailureObject.eta (f : FailureObject) :
    FailureObject.mk f.message f.causes = f := by
  cases f
  rfl

theorem matchSeqGo_suffix (c : ParserC → JStr → Option ParseResultInner) :
    ∀ (ps : List ParserC),
      (∀ p ∈ ps, ∀ s v u sf,
        c p s = some (ParseResultInner.success v u sf) → u <:+ s) →
      ∀ (cur : JStr) (acc : List Value) (v : Value) (u : JStr)
        (sf : Option (List FailureObject)),
        matchSeqGo c ps cur acc = some (ParseResultInner.success v u sf) →
        u <:+ cur := by
  intro ps
  induction ps with
  | nil =>
      intro hc cur acc v u sf h
      simp [matchSeqGo] at h
  | cons p rest IH =>
      intro hc cur acc v u sf h
      cases hc1 : c p cur with
      | none => simp [matchSeqGo, hc1] at h
      | some r =>
          cases r with
          | failure m cs => simp [matchSeqGo, hc1] at h
          | success v1 u1 sf1 =>
              cases rest with
              | nil =>
                  simp [matchSeqGo, hc1] at h
                  obtain ⟨-, h2, -⟩ := h
                  exact h2 ▸ hc p (List.mem_cons_self p []) cur v1 u1 sf1 hc1
              | cons q qs =>
                  simp only [matchSeqGo, hc1] at h
                  exact (IH (fun x hx => hc x (List.mem_cons_of_mem p hx))
                      u1 (acc ++ [v1]) v u sf h).trans
                    (hc p (List.mem_cons_self p (q :: qs)) cur v1 u1 sf1 hc1)

theorem choiceGo_suffix (c : ParserC → JStr → Option ParseResultInner)
    (s : JStr) :
    ∀ (ps : List ParserC),
      (∀ p ∈ ps, ∀ v u sf,
        c p s = some (ParseResultInner.success v u sf) → u <:+ s) →
      ∀ (acc : Option (List FailureObject)) (v : Value) (u : JStr)
        (sf : Option (List FailureObject)),
        choiceGo c s ps acc = some (ParseResultInner.success v u sf) →
        u <:+ s := by
  intro ps
  induction ps with
  | nil =>
      intro hc acc v u sf h
      simp [choiceGo] at h
  | cons p rest IH =>
      intro hc acc v u sf h
      cases hc1 : c p s with
      | none => simp [choiceGo, hc1] at h
      | some r =>
          cases r with
          | failure m cs =>
              simp only [choiceGo, hc1] at h
              exact IH (fun x hx => hc x (List.mem_cons_of_mem p hx)) _ v u sf h
          | success v1 u1 sf1 =>
              simp [choiceGo, hc1] at h
              obtain ⟨-, h2, -⟩ := h
              exact h2 ▸ hc p (List.mem_cons_self p rest) v1 u1 sf1 hc1

theorem repeatGo_suffix (c : JStr → Option ParseResultInner)
    (hc : ∀ t v u sf, c t = some (ParseResultInner.success v u sf) → u <:+ t) :
    ∀ (m : Nat) (cur : JStr) (acc : List Value) (v : Value) (u : JStr)
      (sf : Option (List FailureObject)),
      repeatGo c m cur acc = some (ParseResultInner.success v u sf) → u <:+ cur := by
  intro m
  induction m with
  | zero =>
      intro cur acc v u sf h
      simp [repeatGo] at h
  | succ m IH =>
      intro cur acc v u sf h
      cases hc1 : c cur with
      | none => simp [repeatGo, hc1] at h
      | some r =>
          cases r with
          | failure m1 cs =>
              simp [repeatGo, hc1] at h
              obtain ⟨-, h2, -⟩ := h
              exact h2 ▸ List.suffix_refl cur
          | success v1 u1 sf1 =>
              by_cases hu : u1 = []
              · subst hu
                simp [repeatGo, hc1] at h
                obtain ⟨-, h2, -⟩ := h
                exact h2 ▸ List.nil_suffix
              · simp only [repeatGo, hc1, if_neg hu] at h
                exact (IH u1 (acc ++ [v1]) v u sf h).trans (hc cur v1 u1 sf1 hc1)

/-- The suffix invariant holds under the `RegexesSplit` guard: for every
parser all of whose `regexp` leaves satisfy `ExecSplits` (in particular,
every parser whose pattern expressions are free of capturing groups), a
Success outcome's `unconsumed` is a suffix of that `consume` call's input.
The guard is necessary: see `c1_suffix_invariant_violation` for the
capture-group counterexample the source exhibits. -/
theorem consume_success_suffix :
    ∀ (n : Nat) (p : ParserC), RegexesSplit p →
      ∀ (s : JStr) (v : Value) (u : JStr) (sf : Option (List FailureObject)),
        consume n p s = some (ParseResultInner.success v u sf) → u <:+ s := by
  intro n
  induction n with
  | zero =>
      intro p _ s v u sf h
      simp [consume] at h
  | succ n IH =>
      intro p hg s v u sf h
      cases p with
      | strP lit =>
          by_cases ht : s.take lit.length = lit
          · simp [consume, ht] at h
            obtain ⟨-, h2, -⟩ := h
            exact h2 ▸ List.drop_suffix _ _
          · simp [consume, ht] at h
      | regexpP e =>
          cases hg with
          | regexpP hsplit =>
              cases he : e.exec s with
              | none => simp [consume, he] at h
              | some cu =>
                  obtain ⟨c0, u0⟩ := cu
                  simp [consume, he] at h
                  obtain ⟨-, h2, -⟩ := h
                  exact h2 ▸ ⟨c0, hsplit s c0 u0 he⟩
      | seqP ps =>
          cases hg with
          | seqP hps =>
              simp only [consume] at h
              exact matchSeqGo_suffix _ ps
                (fun q hq t v1 u1 sf1 hh => IH q (hps q hq) t v1 u1 sf1 hh)
                s [] v u sf h
      | choiceP ps =>
          cases hg with
          | choiceP hps =>
              simp only [consume] at h
              exact choiceGo_suffix _ s ps
                (fun q hq v1 u1 sf1 hh => IH q (hps q hq) s v1 u1 sf1 hh)
                none v u sf h
      | repeatP p =>
          cases hg with
          | repeatP hp =>
              simp only [consume] at h
              exact repeatGo_suffix _
                (fun t v1 u1 sf1 hh => IH p hp t v1 u1 sf1 hh) n s [] v u sf h
      | lazyP f =>
          cases hg with
          | lazyP hf =>
              simp only [consume] at h
              exact IH (f ()) hf s v u sf h
      | thenP p act =>
          cases hg with
          | thenP hp =>
              cases hc1 : consume n p s with
              | none => simp [consume, hc1] at h
              | some r =>
                  cases r with
                  | failure m cs => simp [consume, hc1] at h
                  | success v1 u1 sf1 =>
                      simp [consume, hc1] at h
                      obtain ⟨-, h2, -⟩ := h
                      exact h2 ▸ IH p hp s v1 u1 sf1 hc1
      | validateP p pred =>
          cases hg with
          | validateP hp =>
              cases hc1 : consume n p s with
              | none => simp [consume, hc1] at h
              | some r =>
                  cases r with
                  | failure m cs => simp [consume, hc1] at h
                  | success v1 u1 sf1 =>
                      by_cases hpred : pred v1
                      · simp [consume, hc1, hpred] at h
                        obtain ⟨-, h2, -⟩ := h
                        exact h2 ▸ IH p hp s v1 u1 sf1 hc1
                      · simp [consume, hc1, hpred] at h
      | onParsedP p =>
          cases hg with
          | onParsedP hp =>
              simp only [consume] at h
              exact IH p hp s v u sf h
      | notP p q =>
          cases hg with
          | notP hp hq =>
              cases hc1 : consume n q s with
              | none => simp [consume, hc1] at h
              | some r =>
                  cases r with
                  | success v1 u1 sf1 => simp [consume, hc1] at h
                  | failure m cs =>
                      simp only [consume, hc1] at h
                      exact IH p hp s v u sf h

/-- C1 fails on the code (code bug): `regexp` builds the combined matcher
^((a))([\x5cs\x5cS]*)$ for the expression /(a)/, and JavaScript numbers
capture groups by left-parenthesis order over the combined pattern, so the
destructured result[2], stored as `unconsumed`, is the expression's inner
capture group "a" rather than the remainder "b".  Consuming "ab" therefore
succeeds with `unconsumed` "a", which is not a suffix of the input "ab" —
against the claimed invariant, which is the evident intent of the code (the
destructuring names the group `unconsumed`, the wrapper reserves a trailing
group for the remainder, and the invariant is proved above for every parser
whose regexp leaves split the input). -/
theorem c1_suffix_invariant_violation :
    consume 1 (ParserC.regexpP groupRegExp) (jstr "ab") =
        some (ParseResultInner.success (Value.vstr (jstr "a")) (jstr "a") none)
      ∧ ¬ jstr "a" <:+ jstr "ab" :=
  ⟨rfl, by decide⟩


theorem repeatGo_success_shape (c : JStr → Option ParseResultInner) :
    ∀ (m : Nat) (cur : JStr) (acc : List Value) (r : ParseResultInner),
      repeatGo c m cur acc = some r →
      ∃ vs u, r = ParseResultInner.success (Value.vlist vs) u none := by
  intro m
  induction m with
  | zero =>
      intro cur acc r h
      simp [repeatGo] at h
  | succ m IH =>
      intro cur acc r h
      cases hc1 : c cur with
      | none => simp [repeatGo, hc1] at h
      | some r1 =>
          cases r1 with
          | failure m1 cs =>
              simp [repeatGo, hc1] at h
              exact ⟨acc, cur, h.symm⟩
          | success v1 u1 sf1 =>
              by_cases hu : u1 = []
              · subst hu
                simp [repeatGo, hc1] at h
                exact ⟨acc ++ [v1], [], h.symm⟩
              · simp only [repeatGo, hc1, if_neg hu] at h
                exact IH u1 (acc ++ [v1]) r h

/-- C2 (amended): whenever `repeat(p).consume(s)` produces an outcome at all,
that outcome is a Success — the accumulated array of contents with no
`suppressedFailures` — never a Failure, regardless of whether or how often
`p` matches. -/
theorem c2_repeat_never_fails (n : Nat) (p : ParserC) (s : JStr)
    (r : ParseResultInner)
    (h : consume n (ParserC.repeatP p) s = some r) :
    ∃ vs u, r = ParseResultInner.success (Value.vlist vs) u none := by
  cases n with
  | zero => simp [consume] at h
  | succ n =>
      simp only [consume] at h
      exact repeatGo_success_shape _ n s [] r h

/-- Witness for C2 (amended) at a concrete parser and input:
`repeat(str("a")).consume("aab")` evaluates to an outcome, and the theorem
identifies it as a Success. -/
theorem c2_repeat_never_fails_witness :
    ∃ vs u,
      ParseResultInner.success
          (Value.vlist [Value.vstr (jstr "a"), Value.vstr (jstr "a")])
          (jstr "b") none =
        ParseResultInner.success (Value.vlist vs) u none :=
  c2_repeat_never_fails 5 (ParserC.strP (jstr "a")) (jstr "aab")
    (ParseResultInner.success
      (Value.vlist [Value.vstr (jstr "a"), Value.vstr (jstr "a")])
      (jstr "b") none) rfl

theorem repeatGo_stuck (c : JStr → Option ParseResultInner) (cur : JStr)
    (v : Value) (sf : Option (List FailureObject)) (hcur : cur ≠ [])
    (hc : c cur = some (ParseResultInner.success v cur sf)) :
    ∀ (m : Nat) (acc : List Value), repeatGo c m cur acc = none := by
  intro m
  induction m with
  | zero => intro acc; rfl
  | succ m IH =>
      intro acc
      simp only [repeatGo, hc, if_neg hcur]
      exact IH (acc ++ [v])

/-- C2 counterexample: the claim's termination part fails on the code.  For
the parser `repeat(str(""))` and the input "a", the inner parser always
succeeds consuming nothing, the loop's stopping test `unconsumed !== ""`
never fires, and `consume` recurses forever: no outcome is ever produced. -/
theorem c2_repeat_counterexample :
    ¬ ∃ (n : Nat) (r : ParseResultInner),
        consume n (ParserC.repeatP (ParserC.strP [])) (jstr "a") = some r := by
  rintro ⟨n, r, h⟩
  cases n with
  | zero => simp [consume] at h
  | succ n =>
      simp only [consume] at h
      cases n with
      | zero => simp [repeatGo] at h
      | succ n1 =>
          rw [repeatGo_stuck (fun t => consume (n1 + 1) (ParserC.strP []) t)
            (jstr "a") (Value.vstr []) none (by simp [jstr])
            (by simp [consume])] at h
          cases h

/-- C10 (implicit): the zero-length `sequence()` parser never returns an
Outcome: `_matchSeq` reads `parsers[0]`, which is `undefined`, and calling
`consume` on it aborts evaluation with a runtime type error instead of
producing Success or Failure.  In the model, evaluation yields no outcome for
any fuel. -/
theorem c10_empty_sequence_no_outcome (n : Nat) (s : JStr) :
    consume n (ParserC.seqP []) s = none := by
  cases n with
  | zero => rfl
  | succ n => rfl

/-- C5: `parse` calls `consume` on the input; a failure comes back unchanged;
a success that consumed the whole input becomes a Match with the same
content; a success with a non-empty remainder r becomes a Failure with the
interpolated "Expect EOF" message and the success's `suppressedFailures` as
`causes`. -/
theorem c5_parse_eof (n : Nat) (p : ParserC) (s : JStr) :
    (∀ m cs, consume n p s = some (ParseResultInner.failure m cs) →
        parse n p s = some (ParseResult.failure m cs))
  ∧ (∀ v sf, consume n p s = some (ParseResultInner.success v [] sf) →
        parse n p s = some (ParseResult.matched v))
  ∧ (∀ v u sf, u ≠ [] →
        consume n p s = some (ParseResultInner.success v u sf) →
        parse n p s = some (ParseResult.failure
          (jstr "Expect EOF. But '" ++ u ++ jstr "' was found") sf)) := by
  refine ⟨?_, ?_, ?_⟩
  · intro m cs h
    simp [parse, h]
  · intro v sf h
    simp [parse, h]
  · intro v u sf hu h
    simp [parse, h, hu]

/-- Witness for C5 at a concrete parser and input: `str("a").parse("ab")`
leaves the non-empty remainder "b" and produces the interpolated failure. -/
theorem c5_parse_eof_witness :
    parse 2 (ParserC.strP (jstr "a")) (jstr "ab") =
      some (ParseResult.failure (jstr "Expect EOF. But 'b' was found") none) :=
  (c5_parse_eof 2 (ParserC.strP (jstr "a")) (jstr "ab")).2.2
    (Value.vstr (jstr "a")) (jstr "b") none (by simp [jstr]) rfl

/-- C6 fails on the code (code bug): for the expression /(a)/, whose source
contains a capturing group, the destructured result[2] is the expression's
inner capture group, so consuming "ab" matches the prefix "a" but returns
`unconsumed` "a" instead of "b" — the content and the returned `unconsumed`
do not reassemble the input, so `unconsumed` is not everything in the input
after the matched prefix, against the claim (and the spec's statement that
the engine "only anchors it and splits matched/unmatched"). -/
theorem c6_regexp_unconsumed_violation :
    consume 1 (ParserC.regexpP groupRegExp) (jstr "ab") =
        some (ParseResultInner.success (Value.vstr (jstr "a")) (jstr "a") none)
      ∧ jstr "a" ++ jstr "a" ≠ jstr "ab" :=
  ⟨rfl, by decide⟩

/-- C7: `p.not(q).consume(s)` first runs `q` on `s`; a success of `q`
produces the Failure with message "TODO:" and no causes, regardless of what
`q` consumed; a failure of `q` makes the outcome exactly `p.consume(s)`. -/
theorem c7_not_spec (n : Nat) (p q : ParserC) (s : JStr) :
    (∀ v u sf, consume n q s = some (ParseResultInner.success v u sf) →
        consume (n + 1) (ParserC.notP p q) s =
          some (ParseResultInner.failure (jstr "TODO:") none))
  ∧ (∀ m cs, consume n q s = some (ParseResultInner.failure m cs) →
        consume (n + 1) (ParserC.notP p q) s = consume n p s) := by
  constructor
  · intro v u sf h
    simp [consume, h]
  · intro m cs h
    simp [consume, h]

/-- Witness for C7 at a concrete parser and input: with `p = q = str("a")`,
`p.not(q).consume("abc")` is negated because `q` matches. -/
theorem c7_not_spec_witness :
    consume 2 (ParserC.notP (ParserC.strP (jstr "a")) (ParserC.strP (jstr "a")))
        (jstr "abc") =
      some (ParseResultInner.failure (jstr "TODO:") none) :=
  (c7_not_spec 1 (ParserC.strP (jstr "a")) (ParserC.strP (jstr "a"))
      (jstr "abc")).1
    (Value.vstr (jstr "a")) (jstr "bc") none rfl

/-- C8: `p.validate(f).consume(s)` returns `p`'s Success outcome itself
(content, unconsumed and `suppressedFailures` all unchanged) when the
predicate holds of the content; when the predicate rejects the content it
returns the "Validation Error" failure with no causes, discarding the match
and its suppressed-failure context; a failure of `p` passes through
unchanged. -/
theorem c8_validate_spec (n : Nat) (p : ParserC) (f : Value → Bool) (s : JStr) :
    (∀ v u sf, consume n p s = some (ParseResultInner.success v u sf) →
        f v = true →
        consume (n + 1) (ParserC.validateP p f) s =
          some (ParseResultInner.success v u sf))
  ∧ (∀ v u sf, consume n p s = some (ParseResultInner.success v u sf) →
        f v = false →
        consume (n + 1) (ParserC.validateP p f) s =
          some (ParseResultInner.failure (jstr "Validation Error") none))
  ∧ (∀ m cs, consume n p s = some (ParseResultInner.failure m cs) →
        consume (n + 1) (ParserC.validateP p f) s =
          some (ParseResultInner.failure m cs)) := by
  refine ⟨?_, ?_, ?_⟩
  · intro v u sf h hf
    simp [consume, h, hf]
  · intro v u sf h hf
    simp [consume, h, hf]
  · intro m cs h
    simp [consume, h]

/-- Witness for C8 at a concrete parser, predicate and input: a predicate
rejecting every content turns the successful match of `str("a")` on "ab"
into the generic validation failure. -/
theorem c8_validate_spec_witness :
    consume 2 (ParserC.validateP (ParserC.strP (jstr "a")) (fun _ => false))
        (jstr "ab") =
      some (ParseResultInner.failure (jstr "Validation Error") none) :=
  (c8_validate_spec 1 (ParserC.strP (jstr "a")) (fun _ => false)
      (jstr "ab")).2.1
    (Value.vstr (jstr "a")) (jstr "b") none rfl rfl


theorem foldl_accPush_some (fs : List FailureObject) :
    ∀ (l : List FailureObject),
      List.foldl accPush (some l) fs = some (l ++ fs) := by
  induction fs with
  | nil => intro l; simp
  | cons f fs IH =>
      intro l
      simp only [List.foldl_cons, accPush]
      rw [IH (l ++ [f])]
      simp

theorem foldl_accPush_none (fs : List FailureObject) :
    List.foldl accPush none fs = optList fs := by
  cases fs with
  | nil => rfl
  | cons f fs =>
      simp only [List.foldl_cons, accPush, optList]
      rw [foldl_accPush_some fs [f]]
      simp

theorem choiceGo_first_success (c : ParserC → JStr → Option ParseResultInner)
    (s : JStr) :
    ∀ (pre : List ParserC) (fs : List FailureObject),
      FailsAt c s pre fs →
      ∀ (p : ParserC) (post : List ParserC) (v : Value) (u : JStr)
        (sf : Option (List FailureObject)),
        c p s = some (ParseResultInner.success v u sf) →
        ∀ (acc : Option (List FailureObject)),
          choiceGo c s (pre ++ p :: post) acc =
            some (ParseResultInner.success v u (List.foldl accPush acc fs)) := by
  intro pre fs hfa
  induction hfa with
  | nil =>
      intro p post v u sf hp acc
      simp only [List.nil_append, choiceGo, hp, List.foldl_nil]
  | cons hqf hrest IH =>
      intro p post v u sf hp acc
      rename_i q f pre1 fs1
      simp only [List.cons_append, choiceGo, hqf]
      have hstep :
          (match acc with
           | none => some [FailureObject.mk f.message f.causes]
           | some fs => some (fs ++ [FailureObject.mk f.message f.causes])) =
            accPush acc f := by
        cases acc <;> simp [accPush, FailureObject.eta]
      rw [hstep]
      exact IH p post v u sf hp (accPush acc f)

theorem choiceGo_all_fail (c : ParserC → JStr → Option ParseResultInner)
    (s : JStr) :
    ∀ (qs : List ParserC) (fs : List FailureObject),
      FailsAt c s qs fs →
      ∀ (acc : Option (List FailureObject)),
        choiceGo c s qs acc =
          some (ParseResultInner.failure (jstr "No Matches")
            (List.foldl accPush acc fs)) := by
  intro qs fs hfa
  induction hfa with
  | nil => intro acc; rfl
  | cons hqf hrest IH =>
      intro acc
      rename_i q f qs1 fs1
      simp only [choiceGo, hqf]
      have hstep :
          (match acc with
           | none => some [FailureObject.mk f.message f.causes]
           | some fs => some (fs ++ [FailureObject.mk f.message f.causes])) =
            accPush acc f := by
        cases acc <;> simp [accPush, FailureObject.eta]
      rw [hstep]
      exact IH (accPush acc f)

theorem optList_of_ne_nil (fs : List FailureObject) (h : fs ≠ []) :
    optList fs = some fs := by
  cases fs with
  | nil => exact absurd rfl h
  | cons f fs => rfl

/-- C3: `choice` tries each alternative, in listed order, against the same
original input `s`.  The first alternative that succeeds determines the
result: its content and unconsumed remainder, with every failure collected
from the earlier alternatives attached in trial order as
`suppressedFailures` (absent when the first alternative succeeds).  If every
alternative fails, the outcome is the Failure "No Matches" whose `causes`
are all collected `message`/`causes` records in trial order. -/
theorem c3_choice_spec (n : Nat) (ps : List ParserC) (s : JStr) :
    (∀ (pre : List ParserC) (p : ParserC) (post : List ParserC)
        (fs : List FailureObject) (v : Value) (u : JStr)
        (sf : Option (List FailureObject)),
        ps = pre ++ p :: post →
        FailsAt (consume n) s pre fs →
        consume n p s = some (ParseResultInner.success v u sf) →
        consume (n + 1) (ParserC.choiceP ps) s =
          some (ParseResultInner.success v u (optList fs)))
  ∧ (∀ fs : List FailureObject, ps ≠ [] →
        FailsAt (consume n) s ps fs →
        consume (n + 1) (ParserC.choiceP ps) s =
          some (ParseResultInner.failure (jstr "No Matches") (some fs))) := by
  constructor
  · intro pre p post fs v u sf hsplit hfa hp
    subst hsplit
    simp only [consume]
    rw [choiceGo_first_success _ s pre fs hfa p post v u sf hp none]
    rw [foldl_accPush_none]
  · intro fs hne hfa
    simp only [consume]
    rw [choiceGo_all_fail _ s ps fs hfa none]
    rw [foldl_accPush_none]
    have hfs : fs ≠ [] := by
      intro hnil
      subst hnil
      cases hfa
      exact hne rfl
    rw [optList_of_ne_nil fs hfs]

/-- Witness for C3 at a concrete alternative list and input:
`choice(str("a"), str("b")).consume("b")` succeeds through the second
alternative with the first alternative's failure suppressed in trial
order. -/
theorem c3_choice_spec_witness :
    consume 2
        (ParserC.choiceP [ParserC.strP (jstr "a"), ParserC.strP (jstr "b")])
        (jstr "b") =
      some (ParseResultInner.success (Value.vstr (jstr "b")) []
        (some [FailureObject.mk (jstr "Literal 'a' not matched: 'b'") none])) :=
  (c3_choice_spec 1 [ParserC.strP (jstr "a"), ParserC.strP (jstr "b")]
      (jstr "b")).1
    [ParserC.strP (jstr "a")] (ParserC.strP (jstr "b")) []
    [FailureObject.mk (jstr "Literal 'a' not matched: 'b'") none]
    (Value.vstr (jstr "b")) [] none rfl
    (List.Forall₂.cons rfl List.Forall₂.nil) rfl


theorem matchSeqGo_cons_success (c : ParserC → JStr → Option ParseResultInner)
    (p : ParserC) (rest : List ParserC) (cur : JStr) (acc : List Value)
    (v : Value) (u : JStr) (sf : Option (List FailureObject))
    (hne : rest ≠ [])
    (hp : c p cur = some (ParseResultInner.success v u sf)) :
    matchSeqGo c (p :: rest) cur acc = matchSeqGo c rest u (acc ++ [v]) := by
  cases rest with
  | nil => exact absurd rfl hne
  | cons r rs => simp [matchSeqGo, hp]

theorem matchSeqGo_chain_success (c : ParserC → JStr → Option ParseResultInner) :
    ∀ {s : JStr} {ps : List ParserC} {vs : List Value} {fin : JStr},
      SeqChain c s ps vs fin → ps ≠ [] →
      ∀ (acc : List Value),
        matchSeqGo c ps s acc =
          some (ParseResultInner.success (Value.vlist (acc ++ vs)) fin none) := by
  intro s ps vs fin hch
  induction hch with
  | nil s => intro hne; exact absurd rfl hne
  | cons hp hrest IH =>
      rename_i s1 p ps1 v vs1 u fin1 sf
      intro _ acc
      cases ps1 with
      | nil =>
          cases hrest
          simp [matchSeqGo, hp]
      | cons q qs =>
          rw [matchSeqGo_cons_success c p (q :: qs) s1 acc v u sf
            (by simp) hp]
          rw [IH (by simp) (acc ++ [v])]
          simp

theorem matchSeqGo_chain_failure (c : ParserC → JStr → Option ParseResultInner) :
    ∀ {s : JStr} {pre : List ParserC} {vs : List Value} {cur : JStr},
      SeqChain c s pre vs cur →
      ∀ (p : ParserC) (post : List ParserC) (m : JStr)
        (cs : Option (List FailureObject)),
        c p cur = some (ParseResultInner.failure m cs) →
        ∀ (acc : List Value),
          matchSeqGo c (pre ++ p :: post) s acc =
            some (ParseResultInner.failure m cs) := by
  intro s pre vs cur hch
  induction hch with
  | nil s =>
      intro p post m cs hfail acc
      simp [matchSeqGo, hfail]
  | cons hp hrest IH =>
      rename_i s1 p1 ps1 v vs1 u fin1 sf
      intro p post m cs hfail acc
      rw [List.cons_append]
      rw [matchSeqGo_cons_success c p1 (ps1 ++ p :: post) s1 acc v u sf
        (by simp) hp]
      exact IH p post m cs hfail (acc ++ [v])

/-- C4: `sequence` runs its parsers in listed order with a cursor
initialized to the input, appending each success's content to an ordered
accumulator and advancing the cursor to that success's `unconsumed`.  The
first failure is returned verbatim, with the same `message` and `causes` and
no wrapping, and the remaining parsers are not run; when every parser
succeeds, the outcome is the Success whose content is the accumulated tuple
in order and whose `unconsumed` is the final cursor. -/
theorem c4_sequence_spec (n : Nat) (ps : List ParserC) (s : JStr) :
    (∀ (vs : List Value) (fin : JStr), ps ≠ [] →
        SeqChain (consume n) s ps vs fin →
        consume (n + 1) (ParserC.seqP ps) s =
          some (ParseResultInner.success (Value.vlist vs) fin none))
  ∧ (∀ (pre : List ParserC) (p : ParserC) (post : List ParserC)
        (vs : List Value) (cur : JStr) (m : JStr)
        (cs : Option (List FailureObject)),
        ps = pre ++ p :: post →
        SeqChain (consume n) s pre vs cur →
        consume n p cur = some (ParseResultInner.failure m cs) →
        consume (n + 1) (ParserC.seqP ps) s =
          some (ParseResultInner.failure m cs)) := by
  constructor
  · intro vs fin hne hch
    simp only [consume]
    rw [matchSeqGo_chain_success (fun p t => consume n p t) hch hne []]
    simp
  · intro pre p post vs cur m cs hsplit hch hfail
    subst hsplit
    simp only [consume]
    exact matchSeqGo_chain_failure (fun p t => consume n p t) hch p post m cs
      hfail []

/-- Witness for C4 at a concrete parser list and input:
`sequence(str("a"), str("b")).consume("abc")` chains the cursor through both
literals and returns the ordered pair of contents with remainder "c". -/
theorem c4_sequence_spec_witness :
    consume 2 (ParserC.seqP [ParserC.strP (jstr "a"), ParserC.strP (jstr "b")])
        (jstr "abc") =
      some (ParseResultInner.success
        (Value.vlist [Value.vstr (jstr "a"), Value.vstr (jstr "b")])
        (jstr "c") none) :=
  (c4_sequence_spec 1 [ParserC.strP (jstr "a"), ParserC.strP (jstr "b")]
      (jstr "abc")).1
    [Value.vstr (jstr "a"), Value.vstr (jstr "b")] (jstr "c") (by simp)
    (SeqChain.cons
      (show consume 1 (ParserC.strP (jstr "a")) (jstr "abc") =
          some (ParseResultInner.success (Value.vstr (jstr "a")) (jstr "bc")
            none) from rfl)
      (SeqChain.cons
        (show consume 1 (ParserC.strP (jstr "b")) (jstr "bc") =
            some (ParseResultInner.success (Value.vstr (jstr "b")) (jstr "c")
              none) from rfl)
        (SeqChain.nil (jstr "c"))))

theorem repeatGo_chain (c : JStr → Option ParseResultInner) :
    ∀ {cur : JStr} {vs : List Value} {fin : JStr},
      RepChain c cur vs fin →
      ∀ (m : Nat) (acc : List Value), vs.length + 1 ≤ m →
        repeatGo c m cur acc =
          some (ParseResultInner.success (Value.vlist (acc ++ vs)) fin none) := by
  intro cur vs fin hch
  induction hch with
  | stop hfail =>
      intro m acc hm
      cases m with
      | zero => simp at hm
      | succ m => simp [repeatGo, hfail]
  | last hsucc =>
      intro m acc hm
      cases m with
      | zero => simp at hm
      | succ m => simp [repeatGo, hsucc]
  | step hsucc hne hrest IH =>
      rename_i cur1 v u sf vs1 fin1
      intro m acc hm
      cases m with
      | zero => simp at hm
      | succ m =>
          simp only [repeatGo, hsucc, if_neg hne]
          rw [IH m (acc ++ [v]) (by simp at hm ⊢; omega)]
          simp

/-- C9: whenever the greedy repetition loop of `repeat(p)` terminates —
consuming `p` against a cursor starting at the input, appending each
success's content and advancing the cursor to the new `unconsumed`, stopping
on a failure of `p` or on an empty cursor — the outcome is the Success whose
content is the accumulated sequence (possibly empty) and whose `unconsumed`
is the cursor at the time of stopping, the stopping failure being discarded.
The fuel bound `vs.length + 1 ≤ n` provides the loop enough fuel for the
terminating run. -/
theorem c9_repeat_accumulation (n : Nat) (p : ParserC) (s : JStr)
    (vs : List Value) (fin : JStr)
    (hch : RepChain (consume n p) s vs fin)
    (hfuel : vs.length + 1 ≤ n) :
    consume (n + 1) (ParserC.repeatP p) s =
      some (ParseResultInner.success (Value.vlist vs) fin none) := by
  simp only [consume]
  rw [repeatGo_chain (fun t => consume n p t) hch n [] hfuel]
  simp

/-- Witness for C9 at a concrete parser and input, the spec's own example:
`repeat(literal("a")).consume("bbb")` stops immediately on the failure of the
first attempt, succeeding with the empty sequence and unconsumed "bbb". -/
theorem c9_repeat_accumulation_witness :
    consume 2 (ParserC.repeatP (ParserC.strP (jstr "a"))) (jstr "bbb") =
      some (ParseResultInner.success (Value.vlist []) (jstr "bbb") none) :=
  c9_repeat_accumulation 1 (ParserC.strP (jstr "a")) (jstr "bbb") []
    (jstr "bbb")
    (RepChain.stop
      (show consume 1 (ParserC.strP (jstr "a")) (jstr "bbb") =
          some (ParseResultInner.failure
            (jstr "Literal 'a' not matched: 'bbb'") none) from rfl))
    (by simp)

end PComb
